import Mathlib

/-!
Verification model of the tool-using agent with persistent memory
(`main.py`, `storage.py`, `tools/`).  Python code is shallowly embedded:
strings are Lean `String`s, Python floats (only ever used for SQLite REAL
confidences and JSON numbers) are modelled as exact unnormalized fractions,
SQLite tables are lists of row structures, and the wall clock / SQL
`CURRENT_TIMESTAMP` is an explicit natural-number parameter.
-/

namespace Agent

/-- Exact-fraction model of a Python float.  All float values reaching the
agent's comparisons are small decimals, so exact rational arithmetic is a
faithful model; the fraction is kept unnormalized so every operation is
plain integer arithmetic.  `den = 0` encodes the three non-finite floats,
which in this program only arise from the `NaN`/`Infinity`/`-Infinity`
constants of Python's `json` module: `num = 0` is `nan`, `num > 0` is
`inf`, `num < 0` is `-inf`; they never reach the arithmetic below. -/
structure PyFloat where
  num : Int
  den : Nat
deriving DecidableEq

/-- Python float from an integer. -/
def PyFloat.ofInt (n : Int) : PyFloat := ⟨n, 1⟩

instance : OfNat PyFloat n := ⟨PyFloat.ofInt n⟩

/-- Python `<` on floats (cross multiplication; denominators are positive). -/
def PyFloat.lt (a b : PyFloat) : Bool := a.num * (b.den : Int) < b.num * (a.den : Int)

/-- Python `<=` on floats. -/
def PyFloat.le (a b : PyFloat) : Bool := a.num * (b.den : Int) ≤ b.num * (a.den : Int)

/-- Python `==` on floats (value equality, not representation equality). -/
def PyFloat.veq (a b : PyFloat) : Bool := a.num * (b.den : Int) == b.num * (a.den : Int)

/-- Python `+` on floats. -/
def PyFloat.add (a b : PyFloat) : PyFloat :=
  ⟨a.num * (b.den : Int) + b.num * (a.den : Int), a.den * b.den⟩

/-- Python `max` of two floats (returns the first argument on ties). -/
def PyFloat.pmax (a b : PyFloat) : PyFloat := if PyFloat.lt a b then b else a

/-- Python `str.lower` restricted to the alphabet this program manipulates
(ASCII plus the Spanish accented letters appearing in its keyword lists). -/
def pyLowerChar (c : Char) : Char :=
  if 'A' ≤ c ∧ c ≤ 'Z' then Char.ofNat (c.toNat + 32)
  else if c = 'Á' then 'á'
  else if c = 'É' then 'é'
  else if c = 'Í' then 'í'
  else if c = 'Ó' then 'ó'
  else if c = 'Ú' then 'ú'
  else if c = 'Ñ' then 'ñ'
  else if c = 'Ü' then 'ü'
  else c

/-- Python `str.lower`. -/
def pyLower (s : String) : String := String.mk (s.toList.map pyLowerChar)

/-- Does `hay` start with `needle`? -/
def leadMatches : List Char → List Char → Bool
  | [], _ => true
  | _ :: _, [] => false
  | a :: as, b :: bs => a == b && leadMatches as bs

/-- Does `needle` occur contiguously inside `hay`? -/
def subIn (needle : List Char) : List Char → Bool
  | [] => needle.isEmpty
  | b :: bs => leadMatches needle (b :: bs) || subIn needle bs

/-- Python `needle in hay` on strings (substring containment). -/
def pyIn (needle hay : String) : Bool := subIn needle.toList hay.toList

/-- Whitespace characters recognized by Python `str.split`/`str.strip`. -/
def pyIsSpace (c : Char) : Bool :=
  c == ' ' || c == '\t' || c == '\n' || c == '\x0d' || c == '\x0b' || c == '\x0c'

/-- Python `str.split()` (split on whitespace runs, dropping empty tokens),
accumulating the current token in reverse. -/
def splitWsAux : List Char → List Char → List String
  | [], acc => if acc.isEmpty then [] else [String.mk acc.reverse]
  | c :: rest, acc =>
    if pyIsSpace c then
      if acc.isEmpty then splitWsAux rest []
      else String.mk acc.reverse :: splitWsAux rest []
    else splitWsAux rest (c :: acc)

/-- The `" ".join(s.strip().split())` whitespace normalization of `main.py`. -/
def normalizeWs (s : String) : String :=
  String.intercalate " " (splitWsAux s.toList [])

/-- Python `s.strip(chars)` and `s.rstrip()`: drop characters satisfying `p`
from both ends / the right end. -/
def stripLeftBy (p : Char → Bool) (l : List Char) : List Char := l.dropWhile p

/-- Right-strip on char lists. -/
def stripRightBy (p : Char → Bool) (l : List Char) : List Char :=
  (l.reverse.dropWhile p).reverse

/-- Python `s.strip(" .")`. -/
def pyStripDotSpace (s : String) : String :=
  String.mk (stripRightBy (fun c => c == ' ' || c == '.')
    (stripLeftBy (fun c => c == ' ' || c == '.') s.toList))

/-- Python `s.strip()` (whitespace). -/
def pyStripWs (s : String) : String :=
  String.mk (stripRightBy pyIsSpace (stripLeftBy pyIsSpace s.toList))

/-- Python `s.rstrip()`. -/
def pyRstripWs (s : String) : String := String.mk (stripRightBy pyIsSpace s.toList)

/-- Python `s.endswith(t)` for a one-character suffix. -/
def pyEndsWithChar (s : String) (c : Char) : Bool := s.toList.getLast? == some c

/-- Character class of the memory-retrieval tokenizer regex
`[a-zA-ZáéíóúÁÉÍÓÚñÑ0-9]`. -/
def queryWordChar (c : Char) : Bool :=
  ('a' ≤ c && c ≤ 'z') || ('A' ≤ c && c ≤ 'Z') || ('0' ≤ c && c ≤ '9') ||
  c == 'á' || c == 'é' || c == 'í' || c == 'ó' || c == 'ú' ||
  c == 'Á' || c == 'É' || c == 'Í' || c == 'Ó' || c == 'Ú' ||
  c == 'ñ' || c == 'Ñ'

/-- `re.findall(r"[a-zA-ZáéíóúÁÉÍÓÚñÑ0-9]+", s)`: maximal runs of word
characters, in order. -/
def findAllWordsAux : List Char → List Char → List String
  | [], acc => if acc.isEmpty then [] else [String.mk acc.reverse]
  | c :: rest, acc =>
    if queryWordChar c then findAllWordsAux rest (c :: acc)
    else if acc.isEmpty then findAllWordsAux rest []
    else String.mk acc.reverse :: findAllWordsAux rest []

/-- All tokenizer matches in a string. -/
def findAllWords (s : String) : List String := findAllWordsAux s.toList []

/-- `MEMORY_TRIGGER_KEYWORDS` from `main.py`. -/
def MEMORY_TRIGGER_KEYWORDS : List String :=
  ["recuerda", "remember", "otra conversación", "conversación anterior",
   "como te dije", "como dije", "mi perfil", "mis preferencias",
   "sobre mí", "mi proyecto", "mi stack", "my preferences", "my profile"]

/-- `MEMORY_CAPTURE_MARKERS` from `main.py`. -/
def MEMORY_CAPTURE_MARKERS : List String :=
  ["mi nombre es", "me llamo", "soy ", "trabajo en", "trabajo con",
   "prefiero", "me gusta", "uso ", "vivo en", "estoy aprendiendo",
   "i am ", "i work", "i prefer", "i like", "my name is"]

/-- `should_load_cross_memory` from `main.py`. -/
def should_load_cross_memory (user_message : String) : Bool :=
  let lowered := pyLower user_message
  MEMORY_TRIGGER_KEYWORDS.any (fun keyword => pyIn keyword lowered)

/-- `memory_budget` from `main.py`. -/
def memory_budget (user_message : String) : Nat × Nat :=
  if should_load_cross_memory user_message then (5, 1000)
  else if user_message.length > 180 then (4, 800)
  else (3, 550)

/-- Leftmost match of `re.search(r"recuerda que\s+(.+)$", s, re.IGNORECASE)`,
returning the captured group.  The regex engine scans left to right; at a
match position the pattern needs the literal `recuerda que` followed by at
least one whitespace character and then at least one further character.  A
whitespace run reaching the end of the string yields at best a whitespace-only
capture, which downstream stripping reduces to the empty string, so the model
reports no match there. -/
def searchRecuerdaQue : List Char → Option (List Char)
  | [] => none
  | c :: rest =>
    let here :=
      if leadMatches "recuerda que".toList ((c :: rest).map pyLowerChar) then
        let after := (c :: rest).drop 12
        match after with
        | a :: _ =>
          if pyIsSpace a then
            let captured := after.dropWhile pyIsSpace
            if captured.isEmpty then none else some captured
          else none
        | [] => none
      else none
    match here with
    | some cap => some cap
    | none => searchRecuerdaQue rest

/-- `extract_memory_candidates` from `main.py`. -/
def extract_memory_candidates (user_message : String) : List String :=
  let normalized := normalizeWs user_message
  let lowered := pyLower normalized
  if normalized.length < 18 then []
  else if pyEndsWithChar normalized '?' && !(pyIn "recuerda que" lowered) then []
  else
    let explicitPart : List String :=
      match searchRecuerdaQue normalized.toList with
      | some cap =>
        let explicit_memory := pyStripDotSpace (String.mk cap)
        if explicit_memory.length ≥ 8 then [explicit_memory] else []
      | none => []
    let markerPart : List String :=
      if MEMORY_CAPTURE_MARKERS.any (fun marker => pyIn marker lowered) then
        let trimmed := pyStripDotSpace normalized
        if trimmed.length ≤ 220 then [trimmed]
        else [pyRstripWs (String.mk (trimmed.toList.take 220)) ++ "..."]
      else []
    let candidates := explicitPart ++ markerPart
    candidates.foldl
      (fun unique item =>
        if item ≠ "" ∧ item ∉ unique then unique ++ [item] else unique) []

/-- Row of the `memories` table (`storage.py`).  `created_at`/`updated_at`
timestamps are modelled as logical clock values supplied by the caller for
SQL `CURRENT_TIMESTAMP`. -/
structure MemRow where
  id : Nat
  user_id : String
  content : String
  source_conversation_id : Option Nat
  confidence : PyFloat
  created_at : Nat
  updated_at : Nat
deriving DecidableEq

/-- The `memories` table with its AUTOINCREMENT counter. -/
structure MemStore where
  rows : List MemRow
  nextId : Nat
deriving DecidableEq

/-- A `memories` store is well formed when every row id is below the
autoincrement counter, as SQLite guarantees. -/
def MemStore.wf (st : MemStore) : Prop := ∀ r ∈ st.rows, r.id < st.nextId

/-- The `ValueError` raised by `save_memory` on blank content. -/
inductive SaveError where
  | emptyContent
deriving DecidableEq

/-- The dedup lookup `SELECT id FROM memories WHERE user_id = ? AND content = ?
LIMIT 1` (first matching row in rowid order). -/
def find_memory (rows : List MemRow) (user_id content : String) : Option MemRow :=
  rows.find? (fun r => r.user_id == user_id && r.content == content)

/-- `ConversationStorage.save_memory` from `storage.py`: strip the content,
reject blank content, then either refresh the existing row for the exact
(user, content) pair — raising its confidence only when the new value is
larger — or insert a fresh row. -/
def save_memory (st : MemStore) (user_id content0 : String)
    (source_conversation_id : Option Nat) (confidence : PyFloat) (now : Nat) :
    Except SaveError (MemStore × Nat) :=
  let content := pyStripWs content0
  if content = "" then .error .emptyContent
  else
    match find_memory st.rows user_id content with
    | some existing =>
      let rows := st.rows.map fun m =>
        if m.id = existing.id then
          { m with
            updated_at := now,
            confidence :=
              if PyFloat.lt m.confidence confidence then confidence else m.confidence }
        else m
      .ok ({ st with rows := rows }, existing.id)
    | none =>
      .ok ({ rows := st.rows ++
               [{ id := st.nextId, user_id := user_id, content := content,
                  source_conversation_id := source_conversation_id,
                  confidence := confidence, created_at := now, updated_at := now }],
             nextId := st.nextId + 1 }, st.nextId)

/-- Stable insertion of `x` after every already-placed element `y` with
`le y x` (so elements comparing equal keep their original relative order). -/
def insOrd (le : α → α → Bool) (x : α) : List α → List α
  | [] => [x]
  | y :: ys => if le y x then y :: insOrd le x ys else x :: y :: ys

/-- Stable sort placing `y` before `x` whenever `le y x`; models both
Python's stable `list.sort` and the deterministic reading of SQLite
`ORDER BY`. -/
def sortOn (le : α → α → Bool) (l : List α) : List α :=
  l.foldl (fun acc x => insOrd le x acc) []

/-- Ordering of `ORDER BY updated_at DESC, confidence DESC`:
`a` may stay placed before `b` when its key is at least as large. -/
def candLe (a b : MemRow) : Bool :=
  b.updated_at < a.updated_at ||
    (a.updated_at == b.updated_at && PyFloat.le b.confidence a.confidence)

/-- One entry of the `scored` list in `get_relevant_memories`. -/
structure Scored where
  score : PyFloat
  updated_at : Nat
  id : Nat
  content : String
deriving DecidableEq

/-- Ordering of `scored.sort(key=(score, updated_at), reverse=True)`:
`a` may stay placed before `b` when its `(score, updated_at)` key is at
least as large (Python tuple comparison, descending). -/
def scoredLe (a b : Scored) : Bool :=
  PyFloat.lt b.score a.score ||
    (PyFloat.veq a.score b.score && b.updated_at ≤ a.updated_at)

/-- The keyword set of a query: lowercase tokenizer matches of length ≥ 4. -/
def queryWords (query : String) : List String :=
  (findAllWords (pyLower query)).filter fun w => 4 ≤ w.length

/-- The keyword score `(keyword_hits * 10) + confidence` of one memory. -/
def memScore (words : List String) (m : MemRow) : PyFloat :=
  let lowered := pyLower m.content
  let keyword_hits := (words.filter fun w => pyIn w lowered).length
  PyFloat.add (PyFloat.ofInt (keyword_hits * 10)) m.confidence

/-- The greedy selection loop of `get_relevant_memories`: skip non-positive
scores when the query has keywords, skip blank memories, skip memories that
would overflow the character budget, stop as soon as `max_items` have been
taken (checked after appending). -/
def selectLoop (words : List String) (max_items max_chars : Nat) :
    List Scored → List (Nat × String) → Nat → List (Nat × String)
  | [], selected, _ => selected
  | entry :: rest, selected, used_chars =>
    if PyFloat.le entry.score 0 && !words.isEmpty then
      selectLoop words max_items max_chars rest selected used_chars
    else
      let memory_text := pyStripWs entry.content
      if memory_text = "" then
        selectLoop words max_items max_chars rest selected used_chars
      else
        let projected := used_chars + memory_text.length
        if projected > max_chars then
          selectLoop words max_items max_chars rest selected used_chars
        else
          let selected2 := selected ++ [(entry.id, memory_text)]
          if selected2.length ≥ max_items then selected2
          else selectLoop words max_items max_chars rest selected2 projected

/-- `ConversationStorage.get_relevant_memories` from `storage.py`. -/
def get_relevant_memories (st : MemStore) (user_id query : String)
    (max_items max_chars : Nat) : List String :=
  let words := queryWords query
  let candidates :=
    (sortOn candLe (st.rows.filter fun r => r.user_id == user_id)).take 100
  if candidates.isEmpty then []
  else
    let scored := candidates.map fun m =>
      { score := memScore words m, updated_at := m.updated_at,
        id := m.id, content := m.content : Scored }
    let sorted := sortOn scoredLe scored
    (selectLoop words max_items max_chars sorted [] 0).map fun e => e.2

/-- JSON-serializable Python values: the payloads that flow through
`serialize_content` / `json.loads`.  Python dicts are association lists in
insertion order with unique keys; ints and floats are kept distinct as in
Python. -/
inductive JVal where
  | null
  | boolV (b : Bool)
  | intV (n : Int)
  | floatV (q : PyFloat)
  | str (s : String)
  | arr (items : List JVal)
  | obj (fields : List (String × JVal))

mutual

/-- Structural equality test on `JVal`. -/
def JVal.beq : JVal → JVal → Bool
  | .null, .null => true
  | .boolV a, .boolV b => a == b
  | .intV a, .intV b => a == b
  | .floatV a, .floatV b => a == b
  | .str a, .str b => a == b
  | .arr as, .arr bs => JVal.beqList as bs
  | .obj as, .obj bs => JVal.beqFields as bs
  | _, _ => false

/-- Structural equality on lists of `JVal`. -/
def JVal.beqList : List JVal → List JVal → Bool
  | [], [] => true
  | a :: as, b :: bs => JVal.beq a b && JVal.beqList as bs
  | _, _ => false

/-- Structural equality on association lists of `JVal`. -/
def JVal.beqFields : List (String × JVal) → List (String × JVal) → Bool
  | [], [] => true
  | (k, v) :: as, (l, w) :: bs => k == l && JVal.beq v w && JVal.beqFields as bs
  | _, _ => false

end

instance : BEq PyFloat := instBEqOfDecidableEq

mutual

theorem JVal.beq_iff : ∀ a b : JVal, JVal.beq a b = true ↔ a = b
  | .null, b => by cases b <;> simp [JVal.beq]
  | .boolV x, b => by cases b <;> simp [JVal.beq]
  | .intV x, b => by cases b <;> simp [JVal.beq]
  | .floatV x, b => by cases b <;> simp [JVal.beq, beq_iff_eq]
  | .str x, b => by cases b <;> simp [JVal.beq]
  | .arr xs, b => by
      cases b <;> simp [JVal.beq]
      exact JVal.beqList_iff xs _
  | .obj xs, b => by
      cases b <;> simp [JVal.beq]
      exact JVal.beqFields_iff xs _

theorem JVal.beqList_iff : ∀ as bs : List JVal, JVal.beqList as bs = true ↔ as = bs
  | [], bs => by cases bs <;> simp [JVal.beqList]
  | a :: as, [] => by simp [JVal.beqList]
  | a :: as, b :: bs => by
      simp [JVal.beqList, JVal.beq_iff a b, JVal.beqList_iff as bs]

theorem JVal.beqFields_iff :
    ∀ as bs : List (String × JVal), JVal.beqFields as bs = true ↔ as = bs
  | [], bs => by cases bs <;> simp [JVal.beqFields]
  | (k, v) :: as, [] => by simp [JVal.beqFields]
  | (k, v) :: as, (l, w) :: bs => by
      simp [JVal.beqFields, JVal.beq_iff v w, JVal.beqFields_iff as bs]

end

instance : DecidableEq JVal :=
  fun a b => decidable_of_iff (JVal.beq a b = true) (JVal.beq_iff a b)

/-- Python `fields.get(key)` on a dict: value of the first (unique) matching
key. -/
def jget (fields : List (String × JVal)) (key : String) : Option JVal :=
  List.lookup key fields

/-- Python `fields.get(key, default)`. -/
def jgetD (fields : List (String × JVal)) (key : String) (dflt : JVal) : JVal :=
  (jget fields key).getD dflt

/-- The per-block normalization of `ConversationStorage.get_messages`: a dict
tagged with one of the three known block types is reduced to its essential
fields (with Python `.get` defaults); anything else is kept as-is. -/
def cleanItem (item : JVal) : JVal :=
  match item with
  | .obj fields =>
    match jget fields "type" with
    | some (.str "text") =>
      .obj [("type", .str "text"), ("text", jgetD fields "text" (.str ""))]
    | some (.str "tool_use") =>
      .obj [("type", .str "tool_use"), ("id", jgetD fields "id" (.str "")),
            ("name", jgetD fields "name" (.str "")),
            ("input", jgetD fields "input" (.obj []))]
    | some (.str "tool_result") =>
      .obj [("type", .str "tool_result"),
            ("tool_use_id", jgetD fields "tool_use_id" (.str "")),
            ("content", jgetD fields "content" (.str ""))]
    | _ => item
  | _ => item

/-- The content normalization of `get_messages`: decoded lists have each
element cleaned; every other decoded value is returned unchanged. -/
def cleanContent : JVal → JVal
  | .arr items => .arr (items.map cleanItem)
  | v => v

/-- Content blocks of an LLM response as the Anthropic SDK delivers them:
`text` blocks and `tool_use` blocks (the only kinds this agent consumes). -/
inductive RespBlock where
  | text (text : String)
  | toolUse (id : String) (name : String) (input : JVal)
deriving DecidableEq

/-- `model_dump()` of an SDK block: all declared model fields, which for a
text block includes the extra `citations` field that `get_messages` later
strips. -/
def dumpBlock : RespBlock → JVal
  | .text t => .obj [("citations", .null), ("text", .str t), ("type", .str "text")]
  | .toolUse i n inp =>
      .obj [("id", .str i), ("input", inp), ("name", .str n), ("type", .str "tool_use")]

/-- Argument shapes this program passes to `add_message`: a plain string, a
list of SDK blocks (`response.content`), a list of plain Python values (the
`tool_results` dicts), or a plain dict. -/
inductive Content where
  | str (s : String)
  | blocks (bs : List RespBlock)
  | pyList (items : List JVal)
  | pyDict (fields : List (String × JVal))
deriving DecidableEq

/-- A TEXT cell of the `messages` table: either a string stored verbatim or
the JSON text `json.dumps(v)`, represented by the value `v` it denotes. -/
inductive StoredCell where
  | rawStr (s : String)
  | jsonText (v : JVal)
deriving DecidableEq

/-- Python decimal rendering of an exact fraction, used to model `str` on a
float: exact for the terminating decimals this program produces (fractional
part truncated to 17 digits otherwise, a modelling approximation of float
repr); the `den = 0` non-finite encodings render as Python prints them. -/
def pyFloatStr (q : PyFloat) : String :=
  if q.den = 0 then
    if q.num = 0 then "nan" else if q.num < 0 then "-inf" else "inf"
  else
  let sign := if q.num < 0 then "-" else ""
  let a := q.num.natAbs
  let d := q.den
  let ip := a / d
  let fracDigits :=
    (List.range 17).foldl
      (fun (state : Nat × String) _ =>
        let r := state.1
        if r = 0 then state
        else ((r * 10) % d, state.2 ++ toString ((r * 10) / d)))
      (a % d, "")
  if fracDigits.2 = "" then sign ++ toString ip ++ ".0"
  else sign ++ toString ip ++ "." ++ fracDigits.2

mutual

/-- Python `str(v)` for a value reaching the non-dict fallback of
`serialize_content` (or an f-string): scalars render exactly; containers
render in `repr` style. -/
def pyStrOf : JVal → String
  | .str s => s
  | v => pyReprOf v

/-- Python `repr(v)` (string escaping inside repr is approximated by
quoting). -/
def pyReprOf : JVal → String
  | .null => "None"
  | .boolV true => "True"
  | .boolV false => "False"
  | .intV n => toString n
  | .floatV q => pyFloatStr q
  | .str s => "\x27" ++ s ++ "\x27"
  | .arr items => "[" ++ pyReprList items ++ "]"
  | .obj fields => "\x7b" ++ pyReprFields fields ++ "\x7d"

/-- Comma-joined element reprs of a Python list. -/
def pyReprList : List JVal → String
  | [] => ""
  | [v] => pyReprOf v
  | v :: rest => pyReprOf v ++ ", " ++ pyReprList rest

/-- Comma-joined `key: value` reprs of a Python dict. -/
def pyReprFields : List (String × JVal) → String
  | [] => ""
  | [(k, v)] => "\x27" ++ k ++ "\x27: " ++ pyReprOf v
  | (k, v) :: rest => "\x27" ++ k ++ "\x27: " ++ pyReprOf v ++ ", " ++ pyReprFields rest

end

/-- `serialize_content` from `storage.py`: strings are stored verbatim; a
list is dumped to JSON after mapping SDK objects through `model_dump`,
keeping dicts, and stringifying anything else; a dict is dumped directly. -/
def serialize_content : Content → StoredCell
  | .str s => .rawStr s
  | .blocks bs => .jsonText (.arr (bs.map dumpBlock))
  | .pyList items => .jsonText (.arr (items.map fun item =>
      match item with
      | .obj fields => .obj fields
      | other => .str (pyStrOf other)))
  | .pyDict fields => .jsonText (.obj fields)

/-- Whitespace accepted between JSON tokens by Python's `json` module. -/
def jsonWs (c : Char) : Bool := c == ' ' || c == '\t' || c == '\n' || c == '\x0d'

/-- Skip JSON whitespace. -/
def skipWs : List Char → List Char
  | c :: rest => if jsonWs c then skipWs rest else c :: rest
  | [] => []

/-- Value of a hexadecimal digit. -/
def hexVal (c : Char) : Option Nat :=
  if '0' ≤ c ∧ c ≤ '9' then some (c.toNat - 48)
  else if 'a' ≤ c ∧ c ≤ 'f' then some (c.toNat - 87)
  else if 'A' ≤ c ∧ c ≤ 'F' then some (c.toNat - 55)
  else none

/-- Character denoted by a JSON short escape. -/
def escChar (c : Char) : Option Char :=
  if c = '"' then some '"'
  else if c = '\\' then some '\\'
  else if c = '/' then some '/'
  else if c = 'b' then some '\x08'
  else if c = 'f' then some '\x0c'
  else if c = 'n' then some '\n'
  else if c = 'r' then some '\x0d'
  else if c = 't' then some '\t'
  else none

/-- Prepend a character to the first component of a parse result. -/
def consFst (c : Char) (p : List Char × List Char) : List Char × List Char :=
  (c :: p.1, p.2)

/-- A low-surrogate `\uXXXX` escape at the head of the input, if present:
the code unit it denotes and the input after it.  Python's `json.loads`
looks exactly one such escape ahead after a high-surrogate escape to
combine the pair. -/
def lowSurrogateEscape : List Char → Option (Nat × List Char)
  | '\\' :: 'u' :: g1 :: g2 :: g3 :: g4 :: rest4 =>
    match hexVal g1, hexVal g2, hexVal g3, hexVal g4 with
    | some m1, some m2, some m3, some m4 =>
      let m := m1 * 4096 + m2 * 256 + m3 * 16 + m4
      if 0xdc00 ≤ m ∧ m ≤ 0xdfff then some (m, rest4) else none
    | _, _, _, _ => none
  | _ => none

/-- Body of a JSON string literal, after the opening quote: returns the
denoted characters and the input remaining after the closing quote.
`\uXXXX` escapes are accepted exactly as Python's `json.loads` accepts
them: a high-surrogate escape immediately followed by a low-surrogate
escape combines into the denoted astral character, and a lone surrogate
escape is accepted (Lean characters cannot carry a surrogate code unit, so
its decoded stand-in is `Char.ofNat`'s default — an approximation of the
decoded value only, never of parse success).  Raw control characters are
rejected as in strict-mode `json.loads`.  The fuel argument only bounds
recursion depth and is chosen ample by the callers (one unit per consumed
character suffices). -/
def parseStringBody : Nat → List Char → Option (List Char × List Char)
  | 0, _ => none
  | _, [] => none
  | fuel + 1, c :: rest =>
    if c = '"' then some ([], rest)
    else if c = '\\' then
      match rest with
      | [] => none
      | e :: rest2 =>
        if e = 'u' then
          match rest2 with
          | h1 :: h2 :: h3 :: h4 :: rest3 =>
            match hexVal h1, hexVal h2, hexVal h3, hexVal h4 with
            | some n1, some n2, some n3, some n4 =>
              let n := n1 * 4096 + n2 * 256 + n3 * 16 + n4
              if 0xd800 ≤ n ∧ n ≤ 0xdbff then
                match lowSurrogateEscape rest3 with
                | some (m, rest4) =>
                  Option.map
                    (consFst (Char.ofNat
                      (0x10000 + (n - 0xd800) * 1024 + (m - 0xdc00))))
                    (parseStringBody fuel rest4)
                | none => Option.map (consFst (Char.ofNat n)) (parseStringBody fuel rest3)
              else Option.map (consFst (Char.ofNat n)) (parseStringBody fuel rest3)
            | _, _, _, _ => none
          | _ => none
        else
          match escChar e with
          | some c2 => Option.map (consFst c2) (parseStringBody fuel rest2)
          | none => none
    else if c.toNat < 32 then none
    else Option.map (consFst c) (parseStringBody fuel rest)

/-- Maximal run of decimal digits. -/
def spanDigits (cs : List Char) : List Char × List Char :=
  (cs.takeWhile Char.isDigit, cs.dropWhile Char.isDigit)

/-- Numeric value of a digit run. -/
def digitsToNat (ds : List Char) : Nat :=
  ds.foldl (fun a c => a * 10 + (c.toNat - 48)) 0

/-- Build the value of a JSON number from its parsed pieces: an integer
when there is no fraction and no exponent, a float otherwise. -/
def mkJsonNum (neg : Bool) (ipart : Nat) (fds : List Char) (hasFrac hasExp : Bool)
    (expNeg : Bool) (eds : List Char) : JVal :=
  if !hasFrac ∧ !hasExp then
    .intV (if neg then -(ipart : Int) else (ipart : Int))
  else
    let mantissa : Nat := ipart * 10 ^ fds.length + digitsToNat fds
    let e := digitsToNat eds
    let num0 : Nat := if expNeg then mantissa else mantissa * 10 ^ e
    let den : Nat := if expNeg then 10 ^ fds.length * 10 ^ e else 10 ^ fds.length
    .floatV ⟨if neg then -(num0 : Int) else (num0 : Int), den⟩

/-- Exponent digits of a JSON number: at least one digit must follow the
exponent marker and optional sign. -/
def numExpDigits (neg : Bool) (ipart : Nat) (fds : List Char) (hasFrac expNeg : Bool)
    (r4 : List Char) : Option (JVal × List Char) :=
  if (spanDigits r4).1.isEmpty then none
  else some (mkJsonNum neg ipart fds hasFrac true expNeg (spanDigits r4).1,
    (spanDigits r4).2)

/-- Optional exponent part of a JSON number. -/
def numExp (neg : Bool) (ipart : Nat) (fds : List Char) (hasFrac : Bool)
    (rest2 : List Char) : Option (JVal × List Char) :=
  match rest2 with
  | e :: r3 =>
    if e = 'e' ∨ e = 'E' then
      match r3 with
      | '-' :: r5 => numExpDigits neg ipart fds hasFrac true r5
      | '+' :: r5 => numExpDigits neg ipart fds hasFrac false r5
      | _ => numExpDigits neg ipart fds hasFrac false r3
    else some (mkJsonNum neg ipart fds hasFrac false false [], rest2)
  | [] => some (mkJsonNum neg ipart fds hasFrac false false [], rest2)

/-- Optional fraction part of a JSON number: a dot must be followed by at
least one digit. -/
def numFrac (neg : Bool) (ipart : Nat) (rest1 : List Char) :
    Option (JVal × List Char) :=
  match rest1 with
  | '.' :: r =>
    if (spanDigits r).1.isEmpty then none
    else numExp neg ipart (spanDigits r).1 true (spanDigits r).2
  | _ => numExp neg ipart [] false rest1

/-- Integer part of a JSON number: digits without a leading zero. -/
def numAfterSign (neg : Bool) (cs1 : List Char) : Option (JVal × List Char) :=
  match cs1 with
  | [] => none
  | d :: _ =>
    if !d.isDigit then none
    else if d = '0' ∧ (spanDigits cs1).1.length > 1 then none
    else numFrac neg (digitsToNat (spanDigits cs1).1) (spanDigits cs1).2

/-- A JSON number literal per the strict grammar of Python's `json` module:
optional minus, integer part without leading zeros, optional fraction,
optional exponent. -/
def parseNumber (cs : List Char) : Option (JVal × List Char) :=
  match cs with
  | '-' :: r => numAfterSign true r
  | _ => numAfterSign false cs

/-- Insert a parsed object member in front of the members parsed after it,
with Python-dict duplicate-key semantics: the first occurrence fixes the
position, the last occurrence fixes the value. -/
def objMergeFront (k : String) (v : JVal) (tl : List (String × JVal)) :
    List (String × JVal) :=
  match List.lookup k tl with
  | some w => (k, w) :: tl.eraseP (fun p => p.1 == k)
  | none => (k, v) :: tl

mutual

/-- One JSON value (recursive descent, fueled; fuel is structural and chosen
ample by `json_loads`). -/
def parseVal : Nat → List Char → Option (JVal × List Char)
  | 0, _ => none
  | fuel + 1, cs =>
    match cs with
    | [] => none
    | '"' :: rest =>
      Option.map (fun p => (JVal.str (String.mk p.1), p.2)) (parseStringBody fuel rest)
    | 't' :: 'r' :: 'u' :: 'e' :: rest => some (.boolV true, rest)
    | 'f' :: 'a' :: 'l' :: 's' :: 'e' :: rest => some (.boolV false, rest)
    | 'n' :: 'u' :: 'l' :: 'l' :: rest => some (.null, rest)
    | '[' :: rest =>
      match skipWs rest with
      | ']' :: rest2 => some (.arr [], rest2)
      | r => Option.map (fun p => (JVal.arr p.1, p.2)) (parseArrItems fuel r)
    | '\x7b' :: rest =>
      match skipWs rest with
      | '\x7d' :: rest2 => some (.obj [], rest2)
      | r => Option.map (fun p => (JVal.obj p.1, p.2)) (parseObjItems fuel r)
    | _ =>
      if leadMatches "NaN".toList cs then some (.floatV ⟨0, 0⟩, cs.drop 3)
      else if leadMatches "Infinity".toList cs then some (.floatV ⟨1, 0⟩, cs.drop 8)
      else if leadMatches "-Infinity".toList cs then some (.floatV ⟨-1, 0⟩, cs.drop 9)
      else parseNumber cs

/-- Comma-separated JSON array items up to the closing bracket. -/
def parseArrItems : Nat → List Char → Option (List JVal × List Char)
  | 0, _ => none
  | fuel + 1, cs =>
    match parseVal fuel cs with
    | none => none
    | some (v, rest) =>
      match skipWs rest with
      | ',' :: rest2 =>
        Option.map (fun p => (v :: p.1, p.2)) (parseArrItems fuel (skipWs rest2))
      | ']' :: rest2 => some ([v], rest2)
      | _ => none

/-- Comma-separated JSON object members up to the closing brace. -/
def parseObjItems : Nat → List Char → Option (List (String × JVal) × List Char)
  | 0, _ => none
  | fuel + 1, cs =>
    match cs with
    | '"' :: rest =>
      match parseStringBody fuel rest with
      | none => none
      | some (k, rest2) =>
        match skipWs rest2 with
        | ':' :: rest3 =>
          match parseVal fuel (skipWs rest3) with
          | none => none
          | some (v, rest4) =>
            match skipWs rest4 with
            | ',' :: rest5 =>
              Option.map (fun p => (objMergeFront (String.mk k) v p.1, p.2))
                (parseObjItems fuel (skipWs rest5))
            | '\x7d' :: rest5 => some ([(String.mk k, v)], rest5)
            | _ => none
        | _ => none
    | _ => none

end

/-- Model of Python `json.loads`: parse one JSON value surrounded by
optional whitespace — including the non-standard `NaN`, `Infinity` and
`-Infinity` constants Python accepts by default — and reject anything
else (`JSONDecodeError`, modelled as `none`). -/
def json_loads (s : String) : Option JVal :=
  let cs := skipWs s.toList
  match parseVal (2 * s.length + 4) cs with
  | some (v, rest) => if (skipWs rest).isEmpty then some v else none
  | none => none

/-- Two-digit uppercase hex rendering of `n % 256`. -/
def hexDigit (n : Nat) : String :=
  let d := n % 16
  if d < 10 then toString d
  else String.mk [Char.ofNat (87 + d)]

/-- Four-digit lowercase hex rendering used by `\uXXXX` escapes. -/
def hex4 (n : Nat) : String :=
  hexDigit (n / 4096) ++ hexDigit (n / 256) ++ hexDigit (n / 16) ++ hexDigit n

/-- JSON string-literal rendering of one character as `json.dumps` emits it
with the default `ensure_ascii=True`. -/
def jsonEscapeChar (c : Char) : String :=
  if c = '"' then "\\\""
  else if c = '\\' then "\\\\"
  else if c = '\n' then "\\n"
  else if c = '\t' then "\\t"
  else if c = '\x0d' then "\\r"
  else if c = '\x08' then "\\b"
  else if c = '\x0c' then "\\f"
  else if c.toNat < 32 ∨ 126 < c.toNat then "\\u" ++ hex4 c.toNat
  else String.mk [c]

/-- A JSON string literal for `s`. -/
def jsonQuote (s : String) : String :=
  "\"" ++ String.join (s.toList.map jsonEscapeChar) ++ "\""

mutual

/-- Model of Python `json.dumps` with its default separators; the
non-finite floats dump as the same non-standard constants `json.loads`
reads (default `allow_nan=True`). -/
def json_dumps : JVal → String
  | .null => "null"
  | .boolV true => "true"
  | .boolV false => "false"
  | .intV n => toString n
  | .floatV q =>
    if q.den = 0 then
      if q.num = 0 then "NaN" else if q.num < 0 then "-Infinity" else "Infinity"
    else pyFloatStr q
  | .str s => jsonQuote s
  | .arr items => "[" ++ json_dumpsList items ++ "]"
  | .obj fields => "\x7b" ++ json_dumpsFields fields ++ "\x7d"

/-- Comma-joined array elements. -/
def json_dumpsList : List JVal → String
  | [] => ""
  | [v] => json_dumps v
  | v :: rest => json_dumps v ++ ", " ++ json_dumpsList rest

/-- Comma-joined object members. -/
def json_dumpsFields : List (String × JVal) → String
  | [] => ""
  | [(k, v)] => jsonQuote k ++ ": " ++ json_dumps v
  | (k, v) :: rest => jsonQuote k ++ ": " ++ json_dumps v ++ ", " ++ json_dumpsFields rest

end

/-- Row of the `conversations` table. -/
structure ConvRow where
  id : Nat
  user_id : String
  title : String
  created_at : Nat
  updated_at : Nat
deriving DecidableEq

/-- Row of the `messages` table. -/
structure MsgRow where
  id : Nat
  conversation_id : Nat
  role : String
  content : StoredCell
  created_at : Nat
deriving DecidableEq

/-- The conversation/message side of `ConversationStorage`, with the two
AUTOINCREMENT counters. -/
structure ConvStore where
  convs : List ConvRow
  nextConvId : Nat
  msgs : List MsgRow
  nextMsgId : Nat
deriving DecidableEq

/-- SQLite's AUTOINCREMENT guarantee: every stored id is below its table's
counter. -/
def ConvStore.wf (st : ConvStore) : Prop :=
  (∀ c ∈ st.convs, c.id < st.nextConvId) ∧ (∀ m ∈ st.msgs, m.id < st.nextMsgId)

/-- The default title `f"Conversation {datetime.now().strftime(...)}"`,
over the logical clock. -/
def defaultTitle (now : Nat) : String := "Conversation " ++ toString now

/-- `ConversationStorage.create_conversation`: `if not title` also replaces
an empty-string title by the default. -/
def create_conversation (st : ConvStore) (title : Option String) (user_id : String)
    (now : Nat) : ConvStore × Nat :=
  let t := match title with
    | some s => if s = "" then defaultTitle now else s
    | none => defaultTitle now
  (⟨st.convs ++ [⟨st.nextConvId, user_id, t, now, now⟩], st.nextConvId + 1,
    st.msgs, st.nextMsgId⟩,
   st.nextConvId)

/-- `ConversationStorage.add_message`: serialize the content, append the
row, and bump the owning conversation's `updated_at`. -/
def add_message (st : ConvStore) (conversation_id : Nat) (role : String)
    (content : Content) (now : Nat) : ConvStore :=
  let cell := serialize_content content
  { st with
    msgs := st.msgs ++ [⟨st.nextMsgId, conversation_id, role, cell, now⟩],
    nextMsgId := st.nextMsgId + 1,
    convs := st.convs.map fun c =>
      if c.id = conversation_id then { c with updated_at := now } else c }

/-- `ConversationStorage.get_conversation`: first row matching the id, or
`None`. -/
def get_conversation (st : ConvStore) (conversation_id : Nat) : Option ConvRow :=
  st.convs.find? fun c => c.id == conversation_id

/-- The read-side decoding of one stored content cell in `get_messages`:
try `json.loads`; on success normalize decoded lists block by block; on
failure keep the raw string. -/
def decodeContent : StoredCell → JVal
  | .rawStr s =>
    match json_loads s with
    | some v => cleanContent v
    | none => .str s
  | .jsonText v => cleanContent v

/-- A message as `get_messages` returns it to the agent loop. -/
structure PyMsg where
  role : String
  content : JVal
deriving DecidableEq

/-- `ConversationStorage.get_messages`: rows of the conversation in id
order, decoded. -/
def get_messages (st : ConvStore) (conversation_id : Nat) : List PyMsg :=
  let rows := sortOn (fun a b => decide (a.id ≤ b.id))
    (st.msgs.filter fun m => m.conversation_id == conversation_id)
  rows.map fun m => ⟨m.role, decodeContent m.content⟩

/-- The wall-clock reading used by the `get_time` tool. -/
structure PyTime where
  year : Nat
  month : Nat
  day : Nat
  hour : Nat
  minute : Nat
  second : Nat
deriving DecidableEq

/-- Zero-padded two-digit decimal field. -/
def pad2 (n : Nat) : String := if n < 10 then "0" ++ toString n else toString n

/-- Zero-padded four-digit decimal field (`%Y`). -/
def pad4 (n : Nat) : String :=
  if n < 10 then "000" ++ toString n
  else if n < 100 then "00" ++ toString n
  else if n < 1000 then "0" ++ toString n
  else toString n

/-- `tools/time.py` executor: format the current time.  A raising executor
is modelled as `none`; this one is total. -/
def time_execute (tnow : PyTime) (_tool_input : JVal) : Option String :=
  some (pad4 tnow.year ++ "-" ++ pad2 tnow.month ++ "-" ++ pad2 tnow.day ++ " "
    ++ pad2 tnow.hour ++ ":" ++ pad2 tnow.minute ++ ":" ++ pad2 tnow.second)

/-- `tools/weather.py` executor: mock weather as a JSON dump; a missing
`city` key raises `KeyError` (`none`). -/
def weather_execute (tool_input : JVal) : Option String :=
  match tool_input with
  | .obj fields =>
    match jget fields "city" with
    | some city =>
      some (json_dumps (.obj [("city", city), ("temperature", .intV 22),
        ("condition", .str "Sunny"), ("humidity", .intV 65)]))
    | none => none
  | _ => none

/-- A Python number operand: int (bools count as ints) or float. -/
inductive PyNum where
  | i (n : Int)
  | f (q : PyFloat)
deriving DecidableEq

/-- Numeric reading of a JSON value as the calculator's operands. -/
def toNum : JVal → Option PyNum
  | .intV n => some (.i n)
  | .boolV b => some (.i (if b then 1 else 0))
  | .floatV q => some (.f q)
  | _ => none

/-- Widen an operand to a fraction. -/
def PyNum.toF : PyNum → PyFloat
  | .i n => ⟨n, 1⟩
  | .f q => q

/-- Python `+`, `-`, `*` on numbers: int when both operands are ints,
float otherwise. -/
def numArith (fi : Int → Int → Int) (ff : PyFloat → PyFloat → PyFloat)
    (a b : PyNum) : PyNum :=
  match a, b with
  | .i n, .i m => .i (fi n m)
  | _, _ => .f (ff a.toF b.toF)

/-- Float subtraction. -/
def PyFloat.sub (a b : PyFloat) : PyFloat :=
  ⟨a.num * (b.den : Int) - b.num * (a.den : Int), a.den * b.den⟩

/-- Float multiplication. -/
def PyFloat.mul (a b : PyFloat) : PyFloat := ⟨a.num * b.num, a.den * b.den⟩

/-- Python true division of numbers (always a float); the divisor is known
to be nonzero at the call site. -/
def numDiv (a b : PyNum) : PyFloat :=
  let x := a.toF
  let y := b.toF
  let s : Int := if y.num < 0 then -1 else 1
  ⟨s * x.num * (y.den : Int), x.den * y.num.natAbs⟩

/-- Is the operand numerically zero (Python `b == 0`)? -/
def numIsZero : PyNum → Bool
  | .i n => n == 0
  | .f q => q.num == 0

/-- Python `str(result)` for a calculator result. -/
def numStr : PyNum → String
  | .i n => toString n
  | .f q => pyFloatStr q

/-- `tools/calculator.py` executor.  Missing keys raise `KeyError` and
non-numeric operands (outside the declared schema) raise `TypeError`; both
are modelled as `none`. -/
def calculator_execute (tool_input : JVal) : Option String :=
  match tool_input with
  | .obj fields =>
    match jget fields "operation", jget fields "a", jget fields "b" with
    | some op, some av, some bv =>
      if op = .str "add" ∨ op = .str "subtract" ∨ op = .str "multiply" then
        match toNum av, toNum bv with
        | some a, some b =>
          if op = .str "add" then
            some (numStr (numArith (· + ·) PyFloat.add a b))
          else if op = .str "subtract" then
            some (numStr (numArith (· - ·) PyFloat.sub a b))
          else
            some (numStr (numArith (· * ·) PyFloat.mul a b))
        | _, _ => none
      else if op = .str "divide" then
        match toNum av, toNum bv with
        | some a, some b =>
          if numIsZero b then some "Error: Division by zero"
          else some (pyFloatStr (numDiv a b))
        | _, _ => none
      else some ("Unknown operation: " ++ pyStrOf op)
    | _, _, _ => none
  | _ => none

/-- `TOOL_EXECUTORS` from `tools/__init__.py`: the auto-discovered modules
in alphabetical order (calculator, time, weather), keyed by their declared
tool names. -/
def TOOL_EXECUTORS (tnow : PyTime) : List (String × (JVal → Option String)) :=
  [("calculator", calculator_execute),
   ("get_time", time_execute tnow),
   ("get_weather", weather_execute)]

/-- `execute_tool` from `main.py`: dispatch by name, or return the sentinel
string for an unregistered name. -/
def execute_tool (tnow : PyTime) (tool_name : String) (tool_input : JVal) :
    Option String :=
  match List.lookup tool_name (TOOL_EXECUTORS tnow) with
  | some executor => executor tool_input
  | none => some ("Tool not found: " ++ tool_name)

/-- Content of a working-memory message in `run_agent`'s `messages` list:
the new user message (a string), an assistant turn (SDK blocks), the
collected tool results (plain dicts), or a message loaded from storage. -/
inductive WContent where
  | str (s : String)
  | blocks (bs : List RespBlock)
  | pyList (items : List JVal)
  | loaded (v : JVal)
deriving DecidableEq

/-- One working-memory message. -/
structure WMsg where
  role : String
  content : WContent
deriving DecidableEq

/-- Conversation resolution at the top of `run_agent` (lines 132–150):
no id → create; unknown id or an id owned by a different user → create a
fresh conversation and start from an empty history; otherwise load the
stored history. -/
def resolve_conversation (st : ConvStore) (conversation_id : Option Nat)
    (user_id : String) (now : Nat) : ConvStore × Nat × List PyMsg :=
  match conversation_id with
  | none =>
    let r := create_conversation st none user_id now
    (r.1, r.2, [])
  | some cid =>
    match get_conversation st cid with
    | some conv =>
      if conv.user_id ≠ user_id then
        let r := create_conversation st none user_id now
        (r.1, r.2, [])
      else (st, cid, get_messages st cid)
    | none =>
      let r := create_conversation st none user_id now
      (r.1, r.2, [])

/-- The turn ingestion that follows resolution (lines 152–155): append the
user message to working memory and persist it. -/
def start_turn (st : ConvStore) (conversation_id : Option Nat)
    (user_id user_message : String) (now : Nat) : ConvStore × Nat × List WMsg :=
  let r := resolve_conversation st conversation_id user_id now
  let messages :=
    r.2.2.map (fun m => (⟨m.role, .loaded m.content⟩ : WMsg))
      ++ [⟨"user", .str user_message⟩]
  (add_message r.1 r.2.1 "user" (.str user_message) now, r.2.1, messages)

/-- The tool-result block built for one tool call (lines 243–247). -/
def mkToolResult (tool_use_id result : String) : JVal :=
  .obj [("type", .str "tool_result"), ("tool_use_id", .str tool_use_id),
        ("content", .str result)]

/-- The tool-dispatch loop over the response blocks (lines 229–247): one
tool-result dict per `tool_use` block, in order.  A raising executor
(the known propagation gap of the design) aborts the turn: `none`. -/
def collect_tool_results (tnow : PyTime) : List RespBlock → Option (List JVal)
  | [] => some []
  | .text _ :: rest => collect_tool_results tnow rest
  | .toolUse i n inp :: rest =>
    match execute_tool tnow n inp with
    | some result =>
      Option.map (fun rs => mkToolResult i result :: rs)
        (collect_tool_results tnow rest)
    | none => none

/-- The `tool_use` branch of the agent loop (lines 217–256): append and
persist the assistant content, dispatch every tool call, then append and
persist one user message holding the ordered tool results. -/
def tool_use_step (tnow : PyTime) (st : ConvStore) (conversation_id : Nat)
    (messages : List WMsg) (content : List RespBlock) (now : Nat) :
    Option (ConvStore × List WMsg) :=
  let messages1 := messages ++ [⟨"assistant", .blocks content⟩]
  let st1 := add_message st conversation_id "assistant" (.blocks content) now
  match collect_tool_results tnow content with
  | none => none
  | some tool_results =>
    some (add_message st1 conversation_id "user" (.pyList tool_results) now,
      messages1 ++ [⟨"user", .pyList tool_results⟩])

/-- The `tool_use` blocks of a response, as (id, name, input) triples in
order. -/
def toolUsesOf : List RespBlock → List (String × String × JVal)
  | [] => []
  | .text _ :: rest => toolUsesOf rest
  | .toolUse i n inp :: rest => (i, n, inp) :: toolUsesOf rest

/-! Helper lemmas about the stable sort and the selection loop. -/

theorem mem_insOrd {le : α → α → Bool} {x a : α} :
    ∀ l : List α, a ∈ insOrd le x l ↔ a = x ∨ a ∈ l
  | [] => by simp [insOrd]
  | y :: ys => by
    simp only [insOrd]
    split
    · simp only [List.mem_cons, mem_insOrd ys]
      tauto
    · simp only [List.mem_cons]

theorem mem_sortOn_aux {le : α → α → Bool} {a : α} :
    ∀ (l : List α) (acc : List α),
      a ∈ l.foldl (fun acc x => insOrd le x acc) acc ↔ a ∈ acc ∨ a ∈ l
  | [], acc => by simp
  | x :: xs, acc => by
    simp only [List.foldl_cons, mem_sortOn_aux xs, mem_insOrd, List.mem_cons]
    tauto

theorem mem_sortOn {le : α → α → Bool} {a : α} (l : List α) :
    a ∈ sortOn le l ↔ a ∈ l := by
  simp [sortOn, mem_sortOn_aux]

theorem insOrd_append {le : α → α → Bool} {x : α} :
    ∀ l : List α, (∀ y ∈ l, le y x = true) → insOrd le x l = l ++ [x]
  | [], _ => rfl
  | y :: ys, h => by
    simp only [insOrd, h y (by simp)]
    simp [insOrd_append ys fun z hz => h z (by simp [hz])]

theorem sortOn_append_one {le : α → α → Bool} (l : List α) (x : α) :
    sortOn le (l ++ [x]) = insOrd le x (sortOn le l) := by
  simp [sortOn, List.foldl_append]

theorem map_self_of {f : α → α} :
    ∀ l : List α, (∀ x ∈ l, f x = x) → l.map f = l
  | [], _ => rfl
  | x :: xs, h => by
    simp only [List.map_cons, h x (by simp)]
    simp [map_self_of xs fun z hz => h z (by simp [hz])]

/-- Total character count of the selected pairs. -/
def pairChars (l : List (Nat × String)) : Nat := (l.map fun e => e.2.length).sum

theorem selectLoop_chars (words : List String) (mi mc : Nat) :
    ∀ (l : List Scored) (sel : List (Nat × String)) (used : Nat),
      pairChars sel = used → used ≤ mc →
      pairChars (selectLoop words mi mc l sel used) ≤ mc
  | [], sel, used, hsum, hle => by simpa [selectLoop, hsum] using hle
  | entry :: rest, sel, used, hsum, hle => by
    simp only [selectLoop]
    split
    · exact selectLoop_chars words mi mc rest sel used hsum hle
    · split
      · exact selectLoop_chars words mi mc rest sel used hsum hle
      · split
        · exact selectLoop_chars words mi mc rest sel used hsum hle
        · rename_i hover
          have hproj : used + (pyStripWs entry.content).length ≤ mc := by omega
          have hsum2 : pairChars (sel ++ [(entry.id, pyStripWs entry.content)]) =
              used + (pyStripWs entry.content).length := by
            unfold pairChars at hsum ⊢
            simp [hsum]
          split
          · simpa [hsum2] using hproj
          · exact selectLoop_chars words mi mc rest _ _ hsum2 hproj

theorem selectLoop_length (words : List String) (mi mc : Nat) :
    ∀ (l : List Scored) (sel : List (Nat × String)) (used : Nat),
      sel.length < mi →
      (selectLoop words mi mc l sel used).length ≤ mi
  | [], sel, used, hlt => by simp [selectLoop]; omega
  | entry :: rest, sel, used, hlt => by
    simp only [selectLoop]
    split
    · exact selectLoop_length words mi mc rest sel used hlt
    · split
      · exact selectLoop_length words mi mc rest sel used hlt
      · split
        · exact selectLoop_length words mi mc rest sel used hlt
        · split
          · rename_i hfull
            simp only [List.length_append, List.length_cons, List.length_nil] at *
            omega
          · rename_i hnotfull
            apply selectLoop_length words mi mc rest
            simp only [List.length_append, List.length_cons, List.length_nil] at *
            omega

theorem selectLoop_mem {words : List String} {mi mc : Nat} {e : Nat × String} :
    ∀ (l : List Scored) (sel : List (Nat × String)) (used : Nat),
      e ∈ selectLoop words mi mc l sel used →
      e ∈ sel ∨ ∃ entry ∈ l, e = (entry.id, pyStripWs entry.content) ∧
        (words.isEmpty || !PyFloat.le entry.score 0) = true
  | [], sel, used, h => by simp [selectLoop] at h; exact Or.inl h
  | entry :: rest, sel, used, h => by
    simp only [selectLoop] at h
    split at h
    · rcases selectLoop_mem rest sel used h with h1 | ⟨x, hx, he⟩
      · exact Or.inl h1
      · exact Or.inr ⟨x, by simp [hx], he⟩
    · rename_i hskip
      have hcond : (words.isEmpty || !PyFloat.le entry.score 0) = true := by
        rcases Bool.not_eq_true _ |>.mp hskip with h2
        cases hs : PyFloat.le entry.score 0 <;> cases hw : words.isEmpty <;>
          simp_all
      split at h
      · rcases selectLoop_mem rest sel used h with h1 | ⟨x, hx, he⟩
        · exact Or.inl h1
        · exact Or.inr ⟨x, by simp [hx], he⟩
      · split at h
        · rcases selectLoop_mem rest sel used h with h1 | ⟨x, hx, he⟩
          · exact Or.inl h1
          · exact Or.inr ⟨x, by simp [hx], he⟩
        · have hmem : e ∈ sel ++ [(entry.id, pyStripWs entry.content)] →
              e ∈ sel ∨ ∃ x ∈ entry :: rest, e = (x.id, pyStripWs x.content) ∧
                (words.isEmpty || !PyFloat.le x.score 0) = true := by
            intro hm
            rcases List.mem_append.mp hm with h1 | h2
            · exact Or.inl h1
            · simp only [List.mem_singleton] at h2
              exact Or.inr ⟨entry, by simp, h2, hcond⟩
          split at h
          · exact hmem h
          · rcases selectLoop_mem rest _ _ h with h1 | ⟨x, hx, he⟩
            · exact hmem h1
            · exact Or.inr ⟨x, by simp [hx], he⟩

/-! Claim theorems. -/

/-- C5 counterexample: with `max_items = 0` the selection loop still returns
one memory, because the cap is only checked after appending; the claim's
count bound fails at `max_items = 0`. -/
theorem get_relevant_memories_zero_items_counterexample :
    get_relevant_memories ⟨[⟨1, "u", "hola mundo", none, 1, 5, 5⟩], 2⟩ "u" "" 0 100 =
      ["hola mundo"] ∧
    ¬ (["hola mundo"] : List String).length ≤ 0 := by
  constructor
  · decide
  · decide

/-- C5 (amended): every retrieval returns memories whose total character
count is at most `max_chars`, and at most `max_items` of them whenever
`max_items ≥ 1`. -/
theorem get_relevant_memories_budget (st : MemStore) (u q : String) (mi mc : Nat) :
    (((get_relevant_memories st u q mi mc).map String.length).sum ≤ mc)
    ∧ (1 ≤ mi → (get_relevant_memories st u q mi mc).length ≤ mi) := by
  simp only [get_relevant_memories]
  split
  · simp
  · constructor
    · have h := selectLoop_chars (queryWords q) mi mc
        (sortOn scoredLe ((sortOn candLe
          (st.rows.filter fun r => r.user_id == u)).take 100 |>.map fun m =>
            { score := memScore (queryWords q) m, updated_at := m.updated_at,
              id := m.id, content := m.content : Scored })) [] 0 rfl (Nat.zero_le mc)
      simpa [pairChars, List.map_map, Function.comp] using h
    · intro hmi
      have h := selectLoop_length (queryWords q) mi mc
        (sortOn scoredLe ((sortOn candLe
          (st.rows.filter fun r => r.user_id == u)).take 100 |>.map fun m =>
            { score := memScore (queryWords q) m, updated_at := m.updated_at,
              id := m.id, content := m.content : Scored })) [] 0 (by simpa using hmi)
      simpa using h

/-- C5 witness: a concrete retrieval obeying both budget bounds. -/
theorem get_relevant_memories_budget_witness :
    (((get_relevant_memories ⟨[⟨1, "u", "hola mundo", none, 1, 5, 5⟩], 2⟩ "u" "" 3 100).map
        String.length).sum ≤ 100)
    ∧ (get_relevant_memories ⟨[⟨1, "u", "hola mundo", none, 1, 5, 5⟩], 2⟩ "u" "" 3 100).length ≤ 3 :=
  ⟨(get_relevant_memories_budget ⟨[⟨1, "u", "hola mundo", none, 1, 5, 5⟩], 2⟩ "u" "" 3 100).1,
   (get_relevant_memories_budget ⟨[⟨1, "u", "hola mundo", none, 1, 5, 5⟩], 2⟩ "u" "" 3 100).2
     (by decide)⟩

/-- C4 counterexample: over the spec's two memories, retrieval for
"¿En qué ciudad vivo?" returns the macOS memory as well, because its score
is its confidence 1.0 > 0 (the skip only fires on non-positive scores), so
the claimed result `["Vivo en Madrid"]` is wrong. -/
theorem retrieval_scenario_counterexample :
    get_relevant_memories
        ⟨[⟨1, "user-a", "Vivo en Madrid", none, 1, 10, 10⟩,
          ⟨2, "user-a", "Uso macOS", none, 1, 20, 20⟩], 3⟩
        "user-a" "¿En qué ciudad vivo?" 5 700 =
      ["Vivo en Madrid", "Uso macOS"] ∧
    (["Vivo en Madrid", "Uso macOS"] : List String) ≠ ["Vivo en Madrid"] := by
  constructor
  · decide
  · decide

/-- C4 (amended): the scenario returns the Madrid memory ranked first and
the macOS memory after it; in general, when the query yields keywords,
every returned memory stems from a row with strictly positive score, so
memories with non-positive score are indeed skipped. -/
theorem retrieval_positive_score :
    (get_relevant_memories
        ⟨[⟨1, "user-a", "Vivo en Madrid", none, 1, 10, 10⟩,
          ⟨2, "user-a", "Uso macOS", none, 1, 20, 20⟩], 3⟩
        "user-a" "¿En qué ciudad vivo?" 5 700 =
      ["Vivo en Madrid", "Uso macOS"])
    ∧ ∀ (st : MemStore) (u q : String) (mi mc : Nat) (s : String),
        queryWords q ≠ [] →
        s ∈ get_relevant_memories st u q mi mc →
        ∃ m ∈ st.rows, m.user_id = u ∧ s = pyStripWs m.content ∧
          PyFloat.le (memScore (queryWords q) m) 0 = false := by
  constructor
  · decide
  · intro st u q mi mc s hw hs
    simp only [get_relevant_memories] at hs
    split at hs
    · simp at hs
    · simp only [List.mem_map] at hs
      obtain ⟨e, he, hes⟩ := hs
      rcases selectLoop_mem _ [] 0 he with h1 | ⟨entry, hentry, heq, hcond⟩
      · simp at h1
      · rw [mem_sortOn] at hentry
        simp only [List.mem_map] at hentry
        obtain ⟨m, hm, hmk⟩ := hentry
        have hm2 : m ∈ sortOn candLe (st.rows.filter fun r => r.user_id == u) :=
          List.take_subset _ _ hm
        rw [mem_sortOn] at hm2
        rw [List.mem_filter] at hm2
        refine ⟨m, hm2.1, by simpa using hm2.2, ?_, ?_⟩
        · rw [← hes, heq, ← hmk]
        · have hwe : (queryWords q).isEmpty = false := by
            simpa [List.isEmpty_iff] using hw
          rw [← hmk] at hcond
          simp only [hwe, Bool.false_or, Bool.not_eq_true'] at hcond
          exact hcond

/-- C4 witness: the positive-score property instantiated on the scenario's
store, for the returned Madrid memory. -/
theorem retrieval_positive_score_witness :
    ∃ m ∈ ([⟨1, "user-a", "Vivo en Madrid", none, 1, 10, 10⟩,
            ⟨2, "user-a", "Uso macOS", none, 1, 20, 20⟩] : List MemRow),
      m.user_id = "user-a" ∧ "Vivo en Madrid" = pyStripWs m.content ∧
      PyFloat.le (memScore (queryWords "¿En qué ciudad vivo?") m) 0 = false :=
  retrieval_positive_score.2
    ⟨[⟨1, "user-a", "Vivo en Madrid", none, 1, 10, 10⟩,
      ⟨2, "user-a", "Uso macOS", none, 1, 20, 20⟩], 3⟩
    "user-a" "¿En qué ciudad vivo?" 5 700 "Vivo en Madrid"
    (by decide) (by decide)

/-- Rows of the memories table holding exactly this (user, content) pair. -/
def memRowsFor (rows : List MemRow) (user_id content : String) : List MemRow :=
  rows.filter fun r => r.user_id == user_id && r.content == content

/-- C3 counterexample: `save_memory` raises `ValueError` on the non-empty
whitespace-only content " ", so the claim's conclusion (an identifier is
returned by both calls) fails for that non-empty content. -/
theorem save_memory_blank_counterexample :
    (save_memory ⟨[], 1⟩ "u1" " " none 1 0).toOption = none ∧ (" " : String) ≠ "" := by
  constructor
  · decide
  · decide

/-- C3 (amended): for content that is non-blank after stripping and a
(user, content) pair not yet present, two saves return the same identifier,
leave exactly one row for the pair, and that row's confidence is the max of
the two calls' confidences. -/
theorem save_memory_dedup_max (st : MemStore) (u content : String)
    (src1 src2 : Option Nat) (c1 c2 : PyFloat) (t1 t2 : Nat)
    (hwf : MemStore.wf st)
    (hc : pyStripWs content ≠ "")
    (hfresh : find_memory st.rows u (pyStripWs content) = none) :
    save_memory st u content src1 c1 t1 =
      .ok (⟨st.rows ++ [⟨st.nextId, u, pyStripWs content, src1, c1, t1, t1⟩],
            st.nextId + 1⟩, st.nextId)
    ∧ save_memory
        ⟨st.rows ++ [⟨st.nextId, u, pyStripWs content, src1, c1, t1, t1⟩], st.nextId + 1⟩
        u content src2 c2 t2 =
      .ok (⟨st.rows ++ [⟨st.nextId, u, pyStripWs content, src1, PyFloat.pmax c1 c2, t1, t2⟩],
            st.nextId + 1⟩, st.nextId)
    ∧ (memRowsFor
        (st.rows ++ [⟨st.nextId, u, pyStripWs content, src1, PyFloat.pmax c1 c2, t1, t2⟩])
        u (pyStripWs content)).length = 1 := by
  have hnone : ∀ x ∈ st.rows,
      ¬((fun r : MemRow => r.user_id == u && r.content == pyStripWs content) x = true) :=
    List.find?_eq_none.mp hfresh
  refine ⟨?_, ?_, ?_⟩
  · simp [save_memory, hc, hfresh]
  · have h0 : List.find? (fun r : MemRow => r.user_id == u && r.content == pyStripWs content)
        st.rows = none := hfresh
    have hfind : find_memory
        (st.rows ++ [⟨st.nextId, u, pyStripWs content, src1, c1, t1, t1⟩])
        u (pyStripWs content) =
        some ⟨st.nextId, u, pyStripWs content, src1, c1, t1, t1⟩ := by
      unfold find_memory
      rw [List.find?_append, h0]
      simp
    have hmap1 : ∀ r ∈ st.rows,
        (if r.id = st.nextId then
          ({ r with
             updated_at := t2,
             confidence := if PyFloat.lt r.confidence c2 then c2 else r.confidence } : MemRow)
         else r) = r := by
      intro r hr
      simp [Nat.ne_of_lt (hwf r hr)]
    simp [save_memory, hc, hfind, List.map_append, map_self_of st.rows hmap1,
      PyFloat.pmax]
  · unfold memRowsFor
    rw [List.filter_append]
    rw [List.filter_eq_nil_iff.mpr hnone]
    simp

/-- C3 witness: the dedup theorem at a concrete fresh store. -/
theorem save_memory_dedup_max_witness :
    save_memory ⟨[], 1⟩ "u1" "Prefiero respuestas cortas" none 1 0 =
      .ok (⟨[⟨1, "u1", pyStripWs "Prefiero respuestas cortas", none, 1, 0, 0⟩], 2⟩, 1)
    ∧ save_memory ⟨[⟨1, "u1", pyStripWs "Prefiero respuestas cortas", none, 1, 0, 0⟩], 2⟩
        "u1" "Prefiero respuestas cortas" none ⟨3, 2⟩ 5 =
      .ok (⟨[⟨1, "u1", pyStripWs "Prefiero respuestas cortas", none,
              PyFloat.pmax 1 ⟨3, 2⟩, 0, 5⟩], 2⟩, 1)
    ∧ (memRowsFor [⟨1, "u1", pyStripWs "Prefiero respuestas cortas", none,
          PyFloat.pmax 1 ⟨3, 2⟩, 0, 5⟩] "u1" (pyStripWs "Prefiero respuestas cortas")).length = 1 := by
  have h := save_memory_dedup_max ⟨[], 1⟩ "u1" "Prefiero respuestas cortas" none none
    1 ⟨3, 2⟩ 0 5 (by intro r hr; simp at hr) (by decide) (by decide)
  simpa using h

/-- C7 counterexample: "previous conversation" is not a trigger keyword of
the code (only its Spanish counterpart "conversación anterior" is), so a
message containing it gets the small default budget (3, 550) instead of the
claimed (5, 1000). -/
theorem memory_budget_counterexample :
    memory_budget "previous conversation" = (3, 550) ∧
    ((3, 550) : Nat × Nat) ≠ (5, 1000) ∧
    pyIn "previous conversation" (pyLower "previous conversation") = true := by
  refine ⟨by decide, by decide, by decide⟩

/-- C7 (amended): the budget is (5, 1000) when the lowercased message
contains one of the thirteen fixed trigger keywords of `main.py` (which
include "remember" and "my profile" but not "previous conversation"),
(4, 800) when there is no trigger and the message exceeds 180 characters,
and (3, 550) otherwise. -/
theorem memory_budget_policy :
    (∀ msg : String, (∃ k ∈ MEMORY_TRIGGER_KEYWORDS, pyIn k (pyLower msg) = true) →
      memory_budget msg = (5, 1000))
    ∧ (∀ msg : String, (∀ k ∈ MEMORY_TRIGGER_KEYWORDS, pyIn k (pyLower msg) = false) →
      180 < msg.length → memory_budget msg = (4, 800))
    ∧ (∀ msg : String, (∀ k ∈ MEMORY_TRIGGER_KEYWORDS, pyIn k (pyLower msg) = false) →
      msg.length ≤ 180 → memory_budget msg = (3, 550)) := by
  have htrig : ∀ msg : String,
      should_load_cross_memory msg = true ↔
        ∃ k ∈ MEMORY_TRIGGER_KEYWORDS, pyIn k (pyLower msg) = true := by
    intro msg
    simp [should_load_cross_memory, List.any_eq_true]
  refine ⟨?_, ?_, ?_⟩
  · intro msg h
    simp [memory_budget, (htrig msg).mpr h]
  · intro msg h hlen
    have hnot : should_load_cross_memory msg = false := by
      rw [Bool.eq_false_iff]
      intro hc
      obtain ⟨k, hk, hin⟩ := (htrig msg).mp hc
      rw [h k hk] at hin
      exact Bool.false_ne_true hin
    simp [memory_budget, hnot, hlen]
  · intro msg h hlen
    have hnot : should_load_cross_memory msg = false := by
      rw [Bool.eq_false_iff]
      intro hc
      obtain ⟨k, hk, hin⟩ := (htrig msg).mp hc
      rw [h k hk] at hin
      exact Bool.false_ne_true hin
    simp [memory_budget, hnot, Nat.not_lt.mpr hlen]

/-- C7 witness: a trigger keyword yields (5, 1000); a short neutral message
yields (3, 550). -/
theorem memory_budget_policy_witness :
    memory_budget "Check my profile" = (5, 1000) ∧ memory_budget "hola" = (3, 550) :=
  ⟨memory_budget_policy.1 "Check my profile" ⟨"my profile", by decide, by decide⟩,
   memory_budget_policy.2.2 "hola" (by decide) (by decide)⟩

/-- C8 (confirmed): extraction returns no candidates when the
whitespace-normalized message is shorter than 18 characters, or when it
ends in "?" without containing the recall phrase "recuerda que"
(case-insensitively); in particular "¿Cuánto es 10 + 5?" yields none. -/
theorem extract_rejects_questions :
    (∀ msg : String, (normalizeWs msg).length < 18 →
      extract_memory_candidates msg = [])
    ∧ (∀ msg : String, pyEndsWithChar (normalizeWs msg) '?' = true →
      pyIn "recuerda que" (pyLower (normalizeWs msg)) = false →
      extract_memory_candidates msg = [])
    ∧ extract_memory_candidates "¿Cuánto es 10 + 5?" = [] := by
  refine ⟨?_, ?_, by decide⟩
  · intro msg h
    simp [extract_memory_candidates, h]
  · intro msg hq hr
    by_cases hlen : (normalizeWs msg).length < 18
    · simp [extract_memory_candidates, hlen]
    · simp [extract_memory_candidates, hlen, hq, hr]

/-- C8 witness: both rejection branches at concrete messages. -/
theorem extract_rejects_questions_witness :
    extract_memory_candidates "Hola" = [] ∧
    extract_memory_candidates "¿Me recomiendas un libro de historia?" = [] :=
  ⟨extract_rejects_questions.1 "Hola" (by decide),
   extract_rejects_questions.2.1 "¿Me recomiendas un libro de historia?"
     (by decide) (by decide)⟩

/-- C9 (confirmed): dispatching an unregistered tool name returns the
sentinel string "Tool not found: <name>" instead of raising; dispatching a
registered name returns whatever that tool's executor produces on the given
input. -/
theorem execute_tool_dispatch :
    (∀ (tnow : PyTime) (name : String) (input : JVal),
      List.lookup name (TOOL_EXECUTORS tnow) = none →
      execute_tool tnow name input = some ("Tool not found: " ++ name))
    ∧ (∀ (tnow : PyTime) (name : String) (f : JVal → Option String) (input : JVal),
      List.lookup name (TOOL_EXECUTORS tnow) = some f →
      execute_tool tnow name input = f input) := by
  constructor
  · intro tnow name input h
    simp [execute_tool, h]
  · intro tnow name f input h
    simp [execute_tool, h]

/-- C9 witness: an unregistered name yields the sentinel, while the
registered calculator executes (10 + 5 = 15). -/
theorem execute_tool_dispatch_witness :
    execute_tool ⟨2025, 1, 1, 0, 0, 0⟩ "translate" (.obj []) =
      some ("Tool not found: " ++ "translate")
    ∧ execute_tool ⟨2025, 1, 1, 0, 0, 0⟩ "calculator"
        (.obj [("operation", .str "add"), ("a", .intV 10), ("b", .intV 5)]) =
      calculator_execute
        (.obj [("operation", .str "add"), ("a", .intV 10), ("b", .intV 5)])
    ∧ calculator_execute
        (.obj [("operation", .str "add"), ("a", .intV 10), ("b", .intV 5)]) =
      some "15" :=
  ⟨execute_tool_dispatch.1 ⟨2025, 1, 1, 0, 0, 0⟩ "translate" (.obj []) rfl,
   execute_tool_dispatch.2 ⟨2025, 1, 1, 0, 0, 0⟩ "calculator" calculator_execute
     (.obj [("operation", .str "add"), ("a", .intV 10), ("b", .intV 5)]) rfl,
   by decide⟩

theorem collect_tool_results_eq (tnow : PyTime) :
    ∀ content : List RespBlock,
      (∀ t ∈ toolUsesOf content, (execute_tool tnow t.2.1 t.2.2).isSome = true) →
      collect_tool_results tnow content =
        some ((toolUsesOf content).map fun t =>
          mkToolResult t.1 ((execute_tool tnow t.2.1 t.2.2).getD ""))
  | [], _ => by simp [collect_tool_results, toolUsesOf]
  | .text s :: rest, h => by
    simp only [collect_tool_results, toolUsesOf]
    exact collect_tool_results_eq tnow rest (by simpa [toolUsesOf] using h)
  | .toolUse i n inp :: rest, h => by
    have h1 : (execute_tool tnow n inp).isSome = true := by
      have := h (i, n, inp) (by simp [toolUsesOf])
      simpa using this
    obtain ⟨r, hr⟩ := Option.isSome_iff_exists.mp h1
    have ih := collect_tool_results_eq tnow rest
      (by intro t ht; exact h t (by simp [toolUsesOf, ht]))
    simp [collect_tool_results, toolUsesOf, hr, ih]

/-- C1 (confirmed): when the response stops for tool use and every requested
executor returns (the known exception-propagation gap aside), the loop
appends exactly two messages to working memory and persists exactly two
rows, in order: the assistant message holding the response content, then
one user message whose tool_result blocks match the tool_use blocks
pairwise in order (same identifier, dispatched string as content). -/
theorem tool_use_step_appends (tnow : PyTime) (st : ConvStore) (cid : Nat)
    (messages : List WMsg) (content : List RespBlock) (now : Nat)
    (h : ∀ t ∈ toolUsesOf content, (execute_tool tnow t.2.1 t.2.2).isSome = true) :
    let results := (toolUsesOf content).map fun t =>
      mkToolResult t.1 ((execute_tool tnow t.2.1 t.2.2).getD "")
    tool_use_step tnow st cid messages content now =
      some (add_message (add_message st cid "assistant" (.blocks content) now)
              cid "user" (.pyList results) now,
            messages ++ [⟨"assistant", .blocks content⟩, ⟨"user", .pyList results⟩])
    ∧ (add_message (add_message st cid "assistant" (.blocks content) now)
        cid "user" (.pyList results) now).msgs =
      st.msgs ++
        [⟨st.nextMsgId, cid, "assistant", serialize_content (.blocks content), now⟩,
         ⟨st.nextMsgId + 1, cid, "user", serialize_content (.pyList results), now⟩]
    ∧ results.length = (toolUsesOf content).length
    ∧ ∀ i : Nat, results[i]? = ((toolUsesOf content)[i]?).map fun t =>
        mkToolResult t.1 ((execute_tool tnow t.2.1 t.2.2).getD "") := by
  refine ⟨?_, ?_, by simp, ?_⟩
  · simp [tool_use_step, collect_tool_results_eq tnow content h]
  · simp [add_message]
  · intro i
    simp [List.getElem?_map]

/-- C1 witness: a turn with two requested calculator calls appends one
assistant message and one user message carrying two matching tool results. -/
theorem tool_use_step_appends_witness :
    tool_use_step ⟨2025, 1, 1, 0, 0, 0⟩ ⟨[⟨1, "default", "t", 0, 0⟩], 2, [], 1⟩ 1 []
        [.toolUse "tu1" "calculator"
           (.obj [("operation", .str "add"), ("a", .intV 10), ("b", .intV 5)]),
         .toolUse "tu2" "calculator"
           (.obj [("operation", .str "multiply"), ("a", .intV 3), ("b", .intV 4)])] 7 =
      some (⟨[⟨1, "default", "t", 0, 7⟩], 2,
             [⟨1, 1, "assistant", serialize_content (.blocks
                [.toolUse "tu1" "calculator"
                   (.obj [("operation", .str "add"), ("a", .intV 10), ("b", .intV 5)]),
                 .toolUse "tu2" "calculator"
                   (.obj [("operation", .str "multiply"), ("a", .intV 3), ("b", .intV 4)])]), 7⟩,
              ⟨2, 1, "user", serialize_content (.pyList
                [mkToolResult "tu1" "15", mkToolResult "tu2" "12"]), 7⟩], 3⟩,
            [⟨"assistant", .blocks
                [.toolUse "tu1" "calculator"
                   (.obj [("operation", .str "add"), ("a", .intV 10), ("b", .intV 5)]),
                 .toolUse "tu2" "calculator"
                   (.obj [("operation", .str "multiply"), ("a", .intV 3), ("b", .intV 4)])]⟩,
             ⟨"user", .pyList [mkToolResult "tu1" "15", mkToolResult "tu2" "12"]⟩]) :=
  ((tool_use_step_appends ⟨2025, 1, 1, 0, 0, 0⟩ ⟨[⟨1, "default", "t", 0, 0⟩], 2, [], 1⟩ 1 []
      [.toolUse "tu1" "calculator"
         (.obj [("operation", .str "add"), ("a", .intV 10), ("b", .intV 5)]),
       .toolUse "tu2" "calculator"
         (.obj [("operation", .str "multiply"), ("a", .intV 3), ("b", .intV 4)])] 7
      (by decide)).1).trans (by decide)

/-- C6 (confirmed): when the given conversation identifier does not exist
or belongs to another user, the turn never raises and never touches the
other conversation: resolution creates exactly one new conversation owned
by the calling user, proceeds with an empty loaded history, and the turn's
persisted user message lands only in that fresh conversation. -/
theorem resolve_fallback (st : ConvStore) (cid : Nat) (user_id msg : String) (now : Nat)
    (hwf : ConvStore.wf st)
    (h : get_conversation st cid = none ∨
      ∃ conv, get_conversation st cid = some conv ∧ conv.user_id ≠ user_id) :
    resolve_conversation st (some cid) user_id now =
      (⟨st.convs ++ [⟨st.nextConvId, user_id, defaultTitle now, now, now⟩],
        st.nextConvId + 1, st.msgs, st.nextMsgId⟩,
       st.nextConvId, ([] : List PyMsg))
    ∧ (∀ c ∈ st.convs, c.id ≠ st.nextConvId)
    ∧ ∀ otherCid : Nat, otherCid ≠ st.nextConvId →
        get_messages (start_turn st (some cid) user_id msg now).1 otherCid =
          get_messages st otherCid := by
  have hres : resolve_conversation st (some cid) user_id now =
      (⟨st.convs ++ [⟨st.nextConvId, user_id, defaultTitle now, now, now⟩],
        st.nextConvId + 1, st.msgs, st.nextMsgId⟩,
       st.nextConvId, ([] : List PyMsg)) := by
    rcases h with hnone | ⟨conv, hc, hu⟩
    · simp [resolve_conversation, hnone, create_conversation]
    · simp [resolve_conversation, hc, hu, create_conversation]
  refine ⟨hres, fun c hc => Nat.ne_of_lt (hwf.1 c hc), ?_⟩
  intro otherCid hne
  have hrow : ((st.nextConvId : Nat) == otherCid) = false := by
    simp
    omega
  simp [start_turn, hres, add_message, get_messages, List.filter_append, hrow]

/-- C6 witness: resolving conversation 1, owned by alice, as bob creates
conversation 2 for bob with empty history and leaves conversation 1's
messages untouched. -/
theorem resolve_fallback_witness :
    resolve_conversation
        ⟨[⟨1, "alice", "t", 0, 0⟩], 2,
         [⟨1, 1, "user", serialize_content (.str "hi"), 0⟩], 2⟩
        (some 1) "bob" 9 =
      (⟨[⟨1, "alice", "t", 0, 0⟩, ⟨2, "bob", defaultTitle 9, 9, 9⟩], 3,
        [⟨1, 1, "user", serialize_content (.str "hi"), 0⟩], 2⟩,
       2, ([] : List PyMsg))
    ∧ get_messages
        (start_turn
          ⟨[⟨1, "alice", "t", 0, 0⟩], 2,
           [⟨1, 1, "user", serialize_content (.str "hi"), 0⟩], 2⟩
          (some 1) "bob" "hola" 9).1 1 =
      get_messages
        ⟨[⟨1, "alice", "t", 0, 0⟩], 2,
         [⟨1, 1, "user", serialize_content (.str "hi"), 0⟩], 2⟩ 1 := by
  have h := resolve_fallback
    ⟨[⟨1, "alice", "t", 0, 0⟩], 2, [⟨1, 1, "user", serialize_content (.str "hi"), 0⟩], 2⟩
    1 "bob" "hola" 9
    (by constructor <;> intro r hr <;> simp at hr <;> simp [hr])
    (Or.inr ⟨⟨1, "alice", "t", 0, 0⟩, by decide, by decide⟩)
  exact ⟨h.1, h.2.2 1 (by decide)⟩

theorem get_messages_add (st : ConvStore) (cid : Nat) (role : String)
    (c : Content) (now : Nat)
    (hwf : ∀ m ∈ st.msgs, m.id < st.nextMsgId) :
    get_messages (add_message st cid role c now) cid =
      get_messages st cid ++ [⟨role, decodeContent (serialize_content c)⟩] := by
  simp only [add_message, get_messages, List.filter_append]
  have hkeep : (([⟨st.nextMsgId, cid, role, serialize_content c, now⟩] : List MsgRow)).filter
      (fun m => m.conversation_id == cid) =
      [⟨st.nextMsgId, cid, role, serialize_content c, now⟩] := by
    simp
  rw [hkeep, sortOn_append_one, insOrd_append]
  · simp
  · intro y hy
    rw [mem_sortOn] at hy
    have hmem := (List.mem_filter.mp hy).1
    have hid := hwf y hmem
    simp only [decide_eq_true_eq]
    omega

/-- C2 (confirmed): a stored list whose elements are dicts round-trips
through `add_message`/`get_messages` into the same ordered sequence with
each block normalized; blocks tagged `text`, `tool_use` and `tool_result`
are reduced to exactly their essential fields, and blocks with an unknown
or missing tag are returned unchanged. -/
theorem content_blocks_round_trip (st : ConvStore) (cid : Nat) (role : String)
    (items : List JVal) (now : Nat)
    (hwf : ∀ m ∈ st.msgs, m.id < st.nextMsgId)
    (hobj : ∀ v ∈ items, ∃ fields, v = .obj fields) :
    (get_messages (add_message st cid role (.pyList items) now) cid =
      get_messages st cid ++ [⟨role, .arr (items.map cleanItem)⟩])
    ∧ (∀ fields : List (String × JVal), jget fields "type" = some (.str "text") →
      cleanItem (.obj fields) =
        .obj [("type", .str "text"), ("text", jgetD fields "text" (.str ""))])
    ∧ (∀ fields : List (String × JVal), jget fields "type" = some (.str "tool_use") →
      cleanItem (.obj fields) =
        .obj [("type", .str "tool_use"), ("id", jgetD fields "id" (.str "")),
              ("name", jgetD fields "name" (.str "")),
              ("input", jgetD fields "input" (.obj []))])
    ∧ (∀ fields : List (String × JVal), jget fields "type" = some (.str "tool_result") →
      cleanItem (.obj fields) =
        .obj [("type", .str "tool_result"),
              ("tool_use_id", jgetD fields "tool_use_id" (.str "")),
              ("content", jgetD fields "content" (.str ""))])
    ∧ (∀ (fields : List (String × JVal)) (tv : JVal), jget fields "type" = some tv →
      tv ≠ .str "text" → tv ≠ .str "tool_use" → tv ≠ .str "tool_result" →
      cleanItem (.obj fields) = .obj fields)
    ∧ (∀ fields : List (String × JVal), jget fields "type" = none →
      cleanItem (.obj fields) = .obj fields) := by
  refine ⟨?_, ?_, ?_, ?_, ?_, ?_⟩
  · rw [get_messages_add st cid role (.pyList items) now hwf]
    have hser : items.map (fun item => match item with
        | .obj fields => JVal.obj fields
        | other => .str (pyStrOf other)) = items := by
      apply map_self_of
      intro v hv
      obtain ⟨fields, rfl⟩ := hobj v hv
      rfl
    simp [serialize_content, hser, decodeContent, cleanContent]
  · intro fields h
    simp [cleanItem, h]
  · intro fields h
    simp [cleanItem, h]
  · intro fields h
    simp [cleanItem, h]
  · intro fields tv h h1 h2 h3
    simp only [cleanItem, h]
    split <;> simp_all
  · intro fields h
    simp [cleanItem, h]

/-- C2 witness: a concrete three-block list (a text block with an extra
field, a tool_use block with an extra field, an unknown-tagged block)
round-trips into its normalized form. -/
theorem content_blocks_round_trip_witness :
    get_messages (add_message ⟨[], 1, [], 1⟩ 1 "assistant"
        (.pyList
          [.obj [("type", .str "text"), ("text", .str "Hello"), ("citations", .null)],
           .obj [("type", .str "tool_use"), ("id", .str "t1"), ("name", .str "calculator"),
                 ("input", .obj [("a", .intV 1)]), ("extra", .intV 5)],
           .obj [("type", .str "thinking"), ("k", .intV 1)]]) 3) 1 =
      [⟨"assistant", .arr
        [.obj [("type", .str "text"), ("text", .str "Hello")],
         .obj [("type", .str "tool_use"), ("id", .str "t1"), ("name", .str "calculator"),
               ("input", .obj [("a", .intV 1)])],
         .obj [("type", .str "thinking"), ("k", .intV 1)]]⟩]
    ∧ cleanItem (.obj [("type", .str "text"), ("text", .str "Hello"), ("citations", .null)]) =
      .obj [("type", .str "text"),
            ("text", jgetD [("type", .str "text"), ("text", .str "Hello"),
              ("citations", .null)] "text" (.str ""))] := by
  have h := content_blocks_round_trip ⟨[], 1, [], 1⟩ 1 "assistant"
    [.obj [("type", .str "text"), ("text", .str "Hello"), ("citations", .null)],
     .obj [("type", .str "tool_use"), ("id", .str "t1"), ("name", .str "calculator"),
           ("input", .obj [("a", .intV 1)]), ("extra", .intV 5)],
     .obj [("type", .str "thinking"), ("k", .intV 1)]] 3
    (by intro m hm; simp at hm)
    (by
      intro v hv
      simp only [List.mem_cons, List.mem_singleton] at hv
      rcases hv with rfl | rfl | rfl | hv
      · exact ⟨_, rfl⟩
      · exact ⟨_, rfl⟩
      · exact ⟨_, rfl⟩
      · simp at hv)
  exact ⟨h.1.trans (by decide), h.2.1 _ (by decide)⟩

theorem skipWs_length : ∀ cs : List Char, (skipWs cs).length ≤ cs.length
  | [] => Nat.le_refl 0
  | c :: cs => by
    simp only [skipWs]
    split
    · exact (skipWs_length cs).trans (by simp)
    · simp

theorem lowSurrogateEscape_length :
    ∀ (cs : List Char) (m : Nat) (rest : List Char),
      lowSurrogateEscape cs = some (m, rest) → rest.length + 6 = cs.length := by
  intro cs m rest h
  simp only [lowSurrogateEscape] at h
  split at h
  · split at h
    · split at h
      · simp only [Option.some.injEq, Prod.mk.injEq] at h
        obtain ⟨rfl, rfl⟩ := h
        simp
      · exact absurd h (by simp)
    · exact absurd h (by simp)
  · exact absurd h (by simp)

theorem parseStringBody_length :
    ∀ (fuel : Nat) (cs t rest : List Char), parseStringBody fuel cs = some (t, rest) →
      t.length + 1 + rest.length ≤ cs.length := by
  intro fuel cs
  induction fuel, cs using parseStringBody.induct with
  | case1 cs =>
    intro t rest h
    simp [parseStringBody.eq_def] at h
  | case2 fuel hne0 =>
    intro t rest h
    cases fuel with
    | zero => exact absurd rfl hne0
    | succ k => simp [parseStringBody.eq_def] at h
  | case3 fuel bs =>
    intro t rest h
    simp [parseStringBody.eq_def] at h
    obtain ⟨rfl, rfl⟩ := h
    simp
    omega
  | case4 fuel hne =>
    intro t rest h
    simp [parseStringBody.eq_def] at h
  | case5 fuel a1 a2 a3 a4 rest3 n1 n2 n3 n4 e4 e3 e2 e1 nn hhi m rest4 hlow hne ih =>
    intro t rest h
    rw [parseStringBody.eq_def] at h
    simp only [e1, e2, e3, e4] at h
    simp [hhi, hlow, consFst, Option.map_eq_some'] at h
    obtain ⟨p1, hp, he⟩ := h
    have hlen := ih p1 rest hp
    have hexp := lowSurrogateEscape_length rest3 m rest4 hlow
    subst he
    simp only [List.length_cons]
    omega
  | case6 fuel a1 a2 a3 a4 rest3 n1 n2 n3 n4 e4 e3 e2 e1 nn hhi hlow hne ih =>
    intro t rest h
    rw [parseStringBody.eq_def] at h
    simp only [e1, e2, e3, e4] at h
    simp [hhi, hlow, consFst, Option.map_eq_some'] at h
    obtain ⟨p1, hp, he⟩ := h
    have hlen := ih p1 rest hp
    subst he
    simp only [List.length_cons]
    omega
  | case7 fuel a1 a2 a3 a4 rest3 n1 n2 n3 n4 e4 e3 e2 e1 nn hnothi hne ih =>
    intro t rest h
    rw [parseStringBody.eq_def] at h
    simp only [e1, e2, e3, e4] at h
    simp [hnothi, consFst, Option.map_eq_some'] at h
    obtain ⟨p1, hp, he⟩ := h
    have hlen := ih p1 rest hp
    subst he
    simp only [List.length_cons]
    omega
  | case8 fuel a1 a2 a3 a4 rest3 hnone hne =>
    intro t rest h
    rw [parseStringBody.eq_def] at h
    cases e1 : hexVal a1 <;> cases e2 : hexVal a2 <;> cases e3 : hexVal a3 <;>
      cases e4 : hexVal a4 <;> simp [e1, e2, e3, e4] at h
    exact (hnone _ _ _ _ e1 e2 e3 e4).elim
  | case9 fuel bs hshape hne =>
    intro t rest h
    rw [parseStringBody.eq_def] at h
    rcases bs with _ | ⟨a, _ | ⟨b, _ | ⟨c, _ | ⟨d, tl⟩⟩⟩⟩ <;>
      first
      | exact (hshape a b c d tl rfl).elim
      | simp at h
  | case10 fuel b bs hu c2 hesc hne ih =>
    intro t rest h
    rw [parseStringBody.eq_def] at h
    simp [hu, hesc, consFst, Option.map_eq_some'] at h
    obtain ⟨p1, hp, he⟩ := h
    have hlen := ih p1 rest hp
    subst he
    simp only [List.length_cons]
    omega
  | case11 fuel b bs hu hesc hne =>
    intro t rest h
    rw [parseStringBody.eq_def] at h
    simp [hu, hesc] at h
  | case12 fuel c cs2 hq hb hctl =>
    intro t rest h
    rw [parseStringBody.eq_def] at h
    simp [hq, hb, hctl] at h
  | case13 fuel c cs2 hq hb hctl ih =>
    intro t rest h
    rw [parseStringBody.eq_def] at h
    simp [hq, hb, hctl, consFst, Option.map_eq_some'] at h
    obtain ⟨p1, hp, he⟩ := h
    have hlen := ih p1 rest hp
    subst he
    simp only [List.length_cons]
    omega


theorem mkJsonNum_not_str (neg : Bool) (ipart : Nat) (fds : List Char)
    (hf he expNeg : Bool) (eds : List Char) :
    ∀ s, mkJsonNum neg ipart fds hf he expNeg eds ≠ .str s := by
  intro s
  unfold mkJsonNum
  split <;> simp

theorem numExpDigits_not_str (neg : Bool) (ipart : Nat) (fds : List Char)
    (hf en : Bool) (r4 : List Char) (v : JVal) (rest : List Char)
    (h : numExpDigits neg ipart fds hf en r4 = some (v, rest)) :
    ∀ s, v ≠ .str s := by
  intro s hv
  subst hv
  simp only [numExpDigits] at h
  split at h <;> simp_all [mkJsonNum_not_str]

theorem numExp_not_str (neg : Bool) (ipart : Nat) (fds : List Char)
    (hf : Bool) (rest2 : List Char) (v : JVal) (rest : List Char)
    (h : numExp neg ipart fds hf rest2 = some (v, rest)) :
    ∀ s, v ≠ .str s := by
  intro s hv
  subst hv
  simp only [numExp] at h
  split at h
  · split at h
    · split at h <;>
        exact (numExpDigits_not_str _ _ _ _ _ _ _ _ h s) rfl
    · simp_all [mkJsonNum_not_str]
  · simp_all [mkJsonNum_not_str]

theorem numFrac_not_str (neg : Bool) (ipart : Nat) (rest1 : List Char)
    (v : JVal) (rest : List Char)
    (h : numFrac neg ipart rest1 = some (v, rest)) : ∀ s, v ≠ .str s := by
  intro s hv
  subst hv
  simp only [numFrac] at h
  split at h
  · split at h
    · simp_all
    · exact (numExp_not_str _ _ _ _ _ _ _ h s) rfl
  · exact (numExp_not_str _ _ _ _ _ _ _ h s) rfl

theorem numAfterSign_not_str (neg : Bool) (cs1 : List Char)
    (v : JVal) (rest : List Char)
    (h : numAfterSign neg cs1 = some (v, rest)) : ∀ s, v ≠ .str s := by
  intro s hv
  subst hv
  simp only [numAfterSign] at h
  split at h
  · simp_all
  · split at h
    · simp_all
    · split at h
      · simp_all
      · exact (numFrac_not_str _ _ _ _ _ h s) rfl

theorem parseNumber_not_str (cs : List Char) (v : JVal) (rest : List Char)
    (h : parseNumber cs = some (v, rest)) : ∀ s, v ≠ .str s := by
  simp only [parseNumber] at h
  split at h <;> exact numAfterSign_not_str _ _ _ _ h

set_option maxHeartbeats 2000000 in
theorem parseVal_str_length (fuel : Nat) (cs : List Char) (t : String)
    (rest : List Char) (h : parseVal fuel cs = some (.str t, rest)) :
    t.length + 2 + rest.length ≤ cs.length := by
  cases fuel with
  | zero => simp [parseVal] at h
  | succ fuel =>
    simp only [parseVal] at h
    split at h
    · exact absurd h (by simp)
    · rcases Option.map_eq_some'.mp h with ⟨p, hp, hpe⟩
      have hlen := parseStringBody_length _ _ p.1 p.2 hp
      simp only [Prod.mk.injEq, JVal.str.injEq] at hpe
      obtain ⟨rfl, rfl⟩ := hpe
      simp only [List.length_cons]
      have hmk : (String.mk p.1).length = p.1.length := rfl
      omega
    · exact absurd h (by simp)
    · exact absurd h (by simp)
    · exact absurd h (by simp)
    · split at h
      · exact absurd h (by simp)
      · exact absurd h (by simp [Option.map_eq_some'])
    · split at h
      · exact absurd h (by simp)
      · exact absurd h (by simp [Option.map_eq_some'])
    · split at h
      · exact absurd h (by simp)
      · split at h
        · exact absurd h (by simp)
        · split at h
          · exact absurd h (by simp)
          · exact ((parseNumber_not_str _ _ _ h t) rfl).elim

theorem json_loads_str_length (s t : String) (h : json_loads s = some (.str t)) :
    t.length < s.length := by
  simp only [json_loads] at h
  split at h
  · rename_i v rest heq
    split at h
    · rename_i hemp
      simp only [Option.some.injEq] at h
      subst h
      have hlen := parseVal_str_length _ _ _ _ heq
      have h1 := skipWs_length s.toList
      have h2 : s.toList.length = s.length := rfl
      omega
    · exact absurd h (by simp)
  · exact absurd h (by simp)

theorem cleanContent_eq_str {v : JVal} {t : String} (h : cleanContent v = .str t) :
    v = .str t := by
  cases v <;> simp_all [cleanContent]

/-- C10 counterexample: the stored plain string decodes as a JSON list
holding a text-tagged block, and `get_messages` returns its block-cleaned
normalization, not the JSON-decoded value itself: the extra "x" field is
dropped. -/
theorem string_json_cleaning_counterexample :
    json_loads "[\x7b\"type\": \"text\", \"text\": \"a\", \"x\": 1\x7d]" =
      some (.arr [.obj [("type", .str "text"), ("text", .str "a"), ("x", .intV 1)]])
    ∧ get_messages (add_message ⟨[], 1, [], 1⟩ 1 "user"
        (.str "[\x7b\"type\": \"text\", \"text\": \"a\", \"x\": 1\x7d]") 0) 1 =
      [⟨"user", .arr [.obj [("type", .str "text"), ("text", .str "a")]]⟩]
    ∧ (JVal.arr [.obj [("type", .str "text"), ("text", .str "a")]]) ≠
      .arr [.obj [("type", .str "text"), ("text", .str "a"), ("x", .intV 1)]] := by
  refine ⟨by decide, by decide, by decide⟩

/-- C10 (amended): a message stored as a plain string is returned verbatim
exactly when the string is not valid JSON; when it parses, `get_messages`
returns the decoded value passed through the block-cleaning normalization
(the decoded value itself unless it is a list containing known-tagged
dicts), so plain-string content round-trips iff it is not valid JSON. -/
theorem string_content_round_trip (st : ConvStore) (cid : Nat) (role : String)
    (s : String) (now : Nat)
    (hwf : ∀ m ∈ st.msgs, m.id < st.nextMsgId) :
    (json_loads s = none →
      get_messages (add_message st cid role (.str s) now) cid =
        get_messages st cid ++ [⟨role, .str s⟩])
    ∧ (∀ v, json_loads s = some v →
      get_messages (add_message st cid role (.str s) now) cid =
        get_messages st cid ++ [⟨role, cleanContent v⟩])
    ∧ (get_messages (add_message st cid role (.str s) now) cid =
        get_messages st cid ++ [⟨role, .str s⟩] ↔ json_loads s = none) := by
  have hadd := get_messages_add st cid role (.str s) now hwf
  have hnonecase : json_loads s = none →
      get_messages (add_message st cid role (.str s) now) cid =
        get_messages st cid ++ [⟨role, .str s⟩] := by
    intro hn
    rw [hadd]
    simp [serialize_content, decodeContent, hn]
  refine ⟨hnonecase, ?_, ?_⟩
  · intro v hv
    rw [hadd]
    simp [serialize_content, decodeContent, hv]
  · constructor
    · intro heq
      by_contra hne
      obtain ⟨v, hv⟩ := Option.ne_none_iff_exists'.mp hne
      rw [hadd] at heq
      simp only [serialize_content, decodeContent, hv] at heq
      have hclean : cleanContent v = .str s := by
        have h2 := List.append_inj_right heq (by rfl)
        simpa using h2
      have hvs : v = .str s := cleanContent_eq_str hclean
      subst hvs
      exact absurd (json_loads_str_length s s hv) (by omega)
    · exact hnonecase

/-- C10 witness: "42" is decoded to the integer 42 in place of the string,
the stored string "NaN" is decoded to the non-finite float nan (Python's
`json.loads` accepts the constant by default), and a non-JSON sentence
round-trips verbatim. -/
theorem string_content_round_trip_witness :
    get_messages (add_message ⟨[], 1, [], 1⟩ 1 "user" (.str "42") 0) 1 =
      [⟨"user", cleanContent (.intV 42)⟩]
    ∧ get_messages (add_message ⟨[], 1, [], 1⟩ 1 "user" (.str "NaN") 0) 1 =
      [⟨"user", .floatV ⟨0, 0⟩⟩]
    ∧ get_messages (add_message ⟨[], 1, [], 1⟩ 1 "user" (.str "Hola mundo") 0) 1 =
      [⟨"user", .str "Hola mundo"⟩] := by
  have h1 := (string_content_round_trip ⟨[], 1, [], 1⟩ 1 "user" "42" 0
    (by intro m hm; simp at hm)).2.1 (.intV 42) (by decide)
  have h3 := (string_content_round_trip ⟨[], 1, [], 1⟩ 1 "user" "NaN" 0
    (by intro m hm; simp at hm)).2.1 (.floatV ⟨0, 0⟩) (by decide)
  have h2 := (string_content_round_trip ⟨[], 1, [], 1⟩ 1 "user" "Hola mundo" 0
    (by intro m hm; simp at hm)).1 (by decide)
  refine ⟨h1.trans (by decide), h3.trans (by decide), h2.trans (by decide)⟩

end Agent
